import Mathlib

/-!
Shallow embedding of the grelly version-derivation tool (`src/main.rs`).

The pure decision logic of the program is translated directly from the Rust
source: the numeric pattern extractor `version_from_string` (a hand-rolled
model of the regex scan with leftmost-first semantics), the branch classifier
`branch_version`, the bounded history walk `head_version`, the numeric merge
`nmerge`, the merge policy of `main_version`, and the release cutter
`main_release` (whose durable side effects are made explicit as an `Effect`
trace).  The git backend (repository handle, revwalk, tag resolution) is
abstracted as data already read from it: the commit chain that the first-parent
revwalk yields, a tag map from object id to tag name, and the short id of HEAD.
Commit messages are modelled as always-present UTF-8 strings; `usize` is
modelled at 64 bits.  Rust's `str::to_lowercase` is modelled as a
character-wise `Char.toLower` (the inputs of interest are ASCII).
-/

namespace Grelly

/-- Models the regex character class `\d` restricted to ASCII digits
(all inputs of interest are ASCII; the digit groups are afterwards fed to
`usize::parse`, which only accepts ASCII digits). -/
def isDigitChar (c : Char) : Bool := 48 ≤ c.toNat && c.toNat ≤ 57

/-- Models the regex character class `[a-z]`. -/
def isLowerAlphaChar (c : Char) : Bool := 97 ≤ c.toNat && c.toNat ≤ 122

/-- Models the regex character class `[\.\-]`. -/
def isSepChar (c : Char) : Bool := c = '.' || c = '-'

/-- Models Rust `str::to_lowercase` (character-wise; ASCII inputs). -/
def strToLower (s : String) : String := String.mk (s.data.map Char.toLower)

/-- Models Rust `str::starts_with` for string patterns. -/
def strStartsWith (s pat : String) : Bool := pat.data.isPrefixOf s.data

/-- `usize::MAX` on the 64-bit targets the crate is built for. -/
def USIZE_MAX : Nat := 18446744073709551615

/-- Numeric value of a run of ASCII digits, as `str::parse::<usize>` computes
it when it does not overflow. -/
def digitsVal (ds : List Char) : Nat := ds.foldl (fun a c => a * 10 + (c.toNat - 48)) 0

/-- `SemanticVersion` of `main.rs` (struct with `major`, `minor`, `patch`,
`ident`, `commit`). -/
structure SemanticVersion where
  major : Nat
  minor : Nat
  patch : Nat
  ident : Option String
  commit : Option String
deriving DecidableEq, Repr

/-- `SemanticVersion::version_string`. -/
def SemanticVersion.version_string (v : SemanticVersion) : String :=
  match v.ident with
  | some i => toString v.major ++ "." ++ toString v.minor ++ "." ++ toString v.patch ++ "-" ++ i
  | none => toString v.major ++ "." ++ toString v.minor ++ "." ++ toString v.patch

/-- `VersionError` of `main.rs` (`Generic(String)`, `Git`, `Io`; for the git
and io variants the payload is irrelevant to the logic and is dropped). -/
inductive VersionError where
  | Generic (msg : String) : VersionError
  | Git : VersionError
  | Io : VersionError
deriving DecidableEq, Repr

/-- `BranchVersion` of `main.rs`. -/
inductive BranchVersion where
  | Master : BranchVersion
  | Release (v : SemanticVersion) : BranchVersion
  | Feature (name : String) : BranchVersion
  | Fix (name : String) : BranchVersion
  | Other (name : String) : BranchVersion
deriving DecidableEq, Repr

/-- `to_number` of `main.rs`: a captured digit group parsed with
`parse::<usize>().unwrap_or(0)` — a missing group or an overflowing value
yields 0. -/
def to_number (g : Option (List Char)) : Nat :=
  match g with
  | some ds => if digitsVal ds ≤ USIZE_MAX then digitsVal ds else 0
  | none => 0

/-- One optional regex group `([\.\-](\d+))?`: at the current rest of the
input, succeed iff a separator followed by at least one digit is present;
return the (greedy) digit run and the remaining input. -/
def afterSep (l : List Char) : Option (List Char × List Char) :=
  match l with
  | [] => none
  | s :: rest =>
    if isSepChar s then
      let ds := rest.takeWhile isDigitChar
      if ds = [] then none else some (ds, rest.dropWhile isDigitChar)
    else none

/-- Capture groups of the regex `([a-z])?(\d+)([\.\-](\d+))?([\.\-](\d+))?`
once a match position with a leading digit has been fixed: greedy `\d+`,
then the two optional separator-digit groups, each value through
`to_number`. -/
def matchAt (l : List Char) : Nat × Nat × Nat :=
  let d1 := l.takeWhile isDigitChar
  let r1 := l.dropWhile isDigitChar
  match afterSep r1 with
  | none => (to_number (some d1), to_number none, to_number none)
  | some (d2, r2) =>
    match afterSep r2 with
    | none => (to_number (some d1), to_number (some d2), to_number none)
    | some (d3, _) => (to_number (some d1), to_number (some d2), to_number (some d3))

/-- Leftmost-first search of the regex
`([a-z])?(\d+)([\.\-](\d+))?([\.\-](\d+))?`: a match starts at the first
position holding a digit, or holding an `[a-z]` letter immediately followed
by a digit (the optional leading letter does not change the numeric
groups). -/
def scanVersion : List Char → Option (Nat × Nat × Nat)
  | [] => none
  | c :: rest =>
    if isDigitChar c then some (matchAt (c :: rest))
    else if isLowerAlphaChar c && (match rest with | d :: _ => isDigitChar d | [] => false) then
      some (matchAt rest)
    else scanVersion rest

/-- `version_from_string` of `main.rs`: lower-case the input, run the regex,
and build a `SemanticVersion` from the three numeric groups; the short id of
the supplied commit (already read from the backend) is attached.  `None`
means "no version found". -/
def version_from_string (raw_name : String) (commit : Option String) : Option SemanticVersion :=
  match scanVersion (strToLower raw_name).data with
  | some (major, minor, patch) => some ⟨major, minor, patch, none, commit⟩
  | none => none

/-- The classification chain of `branch_version` in `main.rs`, applied to the
already lower-cased branch short name. -/
def classify_branch (branch : String) : BranchVersion :=
  match version_from_string branch none with
  | some v => BranchVersion.Release v
  | none =>
    if branch = "master" ∨ branch = "main" ∨ branch = "release" then BranchVersion.Master
    else if strStartsWith branch "feature/" then
      BranchVersion.Feature (String.mk (branch.data.drop 8))
    else if strStartsWith branch "fix/" then
      BranchVersion.Fix (String.mk (branch.data.drop 4))
    else BranchVersion.Other branch

/-- What `repo.head()` yields when it succeeds: a reference whose
`shorthand()` is `Some` branch name, or `None` when the reference name is not
valid UTF-8. -/
structure RepoHead where
  shorthand : Option String
deriving DecidableEq, Repr

/-- `branch_version` of `main.rs`.  The input is the result of `repo.head()`.
The outer `Option` models panics: the source unwraps `head.shorthand()`, so a
head without a shorthand makes the program panic, modelled as `none`;
`some r` is a normal return with result `r`. -/
def branch_version (head : Except VersionError RepoHead) :
    Option (Except VersionError BranchVersion) :=
  match head with
  | Except.error e => some (Except.error e)
  | Except.ok h =>
    match h.shorthand with
    | none => none
    | some name => some (Except.ok (classify_branch (strToLower name)))

/-- `PatchVersion` of `main.rs`. -/
structure PatchVersion where
  release : Option SemanticVersion
  patch_count : Nat
  _patch_oid : Option Nat
  patch_short : Option String
  ident : Option String
deriving DecidableEq, Repr

/-- `PatchVersion::new` of `main.rs` — note it always wraps the release in
`Some`. -/
def PatchVersion.new (release : SemanticVersion) (distance : Nat) (ident : Option String)
    (oid : Option Nat) (short : Option String) : PatchVersion :=
  ⟨some release, distance, oid, short, ident⟩

/-- `PatchVersion::semver` of `main.rs`. -/
def PatchVersion.semver (p : PatchVersion) : SemanticVersion :=
  match p.release with
  | some rv => ⟨rv.major, rv.minor, rv.patch + p.patch_count, p.ident, p.patch_short⟩
  | none => ⟨0, 0, p.patch_count, p.ident, p.patch_short⟩

/-- One commit as the history walk reads it from the backend: object id,
message, short id. -/
structure CommitInfo where
  oid : Nat
  message : String
  short : String
deriving DecidableEq, Repr

/-- The release-commit test of the walk body: the message (lower-cased)
starts with `"release:"` and the full message parses as a version. -/
def releaseHit (c : CommitInfo) : Option SemanticVersion :=
  if strStartsWith (strToLower c.message) "release:" then
    version_from_string c.message (some c.short)
  else none

/-- The tag test of the walk body: the tag map has an entry for this commit
and the tag name parses as a version. -/
def tagHit (tagmap : Nat → Option String) (c : CommitInfo) : Option SemanticVersion :=
  match tagmap c.oid with
  | some tname => version_from_string tname (some c.short)
  | none => none

/-- A commit at which the walk stops, by either test. -/
def commitQualifies (tagmap : Nat → Option String) (c : CommitInfo) : Bool :=
  (releaseHit c).isSome || (tagHit tagmap c).isSome

/-- The revwalk loop of `head_version` in `main.rs`: visit commits in order;
on a release-message hit or a tag hit return the parsed version with the
current count; otherwise increment the count and fail once it exceeds 4096. -/
def head_version_walk (tagmap : Nat → Option String) (head_oid : Nat) (head_short : String) :
    List CommitInfo → Nat → Except VersionError PatchVersion
  | [], count =>
    Except.ok (PatchVersion.new ⟨0, 0, 0, none, none⟩ count none (some head_oid) (some head_short))
  | c :: rest, count =>
    match releaseHit c with
    | some rv =>
      Except.ok (PatchVersion.new rv count none (some head_oid) (some head_short))
    | none =>
      match tagHit tagmap c with
      | some rv =>
        Except.ok (PatchVersion.new rv count none (some head_oid) (some head_short))
      | none =>
        if count + 1 > 4096 then Except.error (VersionError.Generic "too many commits")
        else head_version_walk tagmap head_oid head_short rest (count + 1)

/-- `head_version` of `main.rs`, over the backend data it reads: the built
tag map, HEAD's object id and short id, and the first-parent commit chain
the revwalk yields (newest first). -/
def head_version (tagmap : Nat → Option String) (head_oid : Nat) (head_short : String)
    (chain : List CommitInfo) : Except VersionError PatchVersion :=
  head_version_walk tagmap head_oid head_short chain 0

/-- `nmerge` of `main.rs`. -/
def nmerge (branch head : Nat) : Except VersionError Nat :=
  if branch = 0 ∨ head = 0 then Except.ok (head + branch)
  else if branch = head then Except.ok branch
  else Except.error (VersionError.Generic "major version mismatch")

/-- `main_version` of `main.rs`, over the results of `branch_version` and
`head_version` (each `?`-propagated in the source). -/
def main_version (branchr : Except VersionError BranchVersion)
    (headr : Except VersionError PatchVersion) : Except VersionError SemanticVersion := do
  let branch ← branchr
  let head ← headr
  let headv := head.semver
  match branch with
  | BranchVersion.Master => pure head.semver
  | BranchVersion.Release branchv => do
    let major ← nmerge branchv.major headv.major
    let minor ← nmerge branchv.minor headv.minor
    pure ⟨major, minor, headv.patch, none, headv.commit⟩
  | BranchVersion.Feature f =>
    pure ⟨headv.major, headv.minor, headv.patch, some f, headv.commit⟩
  | BranchVersion.Fix f =>
    pure ⟨headv.major, headv.minor, headv.patch, some f, headv.commit⟩
  | BranchVersion.Other _f =>
    pure ⟨headv.major, headv.minor, headv.patch, some "other", headv.commit⟩

/-- The durable writes of the release path, in the order the source performs
them (the index/tree plumbing of commit creation is part of the `commit`
effect). -/
inductive Effect where
  | writeFile (name : String) (content : String) : Effect
  | commit (message : String) : Effect
  | tag (name : String) (message : String) (force : Bool) : Effect
deriving DecidableEq, Repr

/-- `main_release` of `main.rs`, over the result of `main_version` and with
its backend writes recorded as an `Effect` trace (backend reads are assumed
to succeed).  The precondition check happens before any effect. -/
def main_release (current : Except VersionError SemanticVersion) :
    Except VersionError SemanticVersion × List Effect :=
  match current with
  | Except.error e => (Except.error e, [])
  | Except.ok current_version =>
    if current_version.patch = 0 then
      (Except.error (VersionError.Generic "patch version is not zero"), [])
    else
      let next_version : SemanticVersion :=
        ⟨current_version.major, current_version.minor + 1, 0, none, none⟩
      let filename := "changes." ++ next_version.version_string
      let message := "release: " ++ next_version.version_string
      let identSuffix := match next_version.ident with
        | some v => "-" ++ v
        | none => ""
      let panoo_version :=
        "P" ++ toString next_version.major ++ "-" ++ toString next_version.minor ++ identSuffix
      let panoo_message := "Release " ++ panoo_version
      (Except.ok next_version,
        [Effect.writeFile filename ("Changes for version " ++ next_version.version_string ++ "\n"),
         Effect.commit message,
         Effect.tag panoo_version panoo_message true])

/-- Modelled from the spec: the head-derived version of §4.4,
`headv = history.release ?? {0,0,0}` with `patch = that.patch + distance`
and `commit = history.current_short_id`.  Written from the spec's words for
the refinement claim C1. -/
def spec_head_derived (release : Option SemanticVersion) (distance : Nat)
    (short : Option String) : SemanticVersion :=
  let r := release.getD ⟨0, 0, 0, none, none⟩
  ⟨r.major, r.minor, r.patch + distance, none, short⟩

/-- Modelled from the spec: the merge rule table of §4.4, written from the
spec's words for the refinement claim C1. -/
def spec_merge (branch : BranchVersion) (release : Option SemanticVersion) (distance : Nat)
    (short : Option String) : Except VersionError SemanticVersion :=
  let headv := spec_head_derived release distance short
  match branch with
  | BranchVersion.Master => Except.ok headv
  | BranchVersion.Release branchv => do
    let major ← nmerge branchv.major headv.major
    let minor ← nmerge branchv.minor headv.minor
    Except.ok ⟨major, minor, headv.patch, none, headv.commit⟩
  | BranchVersion.Feature name =>
    Except.ok ⟨headv.major, headv.minor, headv.patch, some name, headv.commit⟩
  | BranchVersion.Fix name =>
    Except.ok ⟨headv.major, headv.minor, headv.patch, some name, headv.commit⟩
  | BranchVersion.Other _ =>
    Except.ok ⟨headv.major, headv.minor, headv.patch, some "other", headv.commit⟩

/-! Helper lemmas about the character classes and the scan. -/

theorem isDigitChar_iff {c : Char} : isDigitChar c = true ↔ 48 ≤ c.toNat ∧ c.toNat ≤ 57 := by
  simp [isDigitChar]

theorem isLowerAlphaChar_iff {c : Char} :
    isLowerAlphaChar c = true ↔ 97 ≤ c.toNat ∧ c.toNat ≤ 122 := by
  simp [isLowerAlphaChar]

theorem toLower_eq_self {c : Char} (h : c.toNat < 65 ∨ 90 < c.toNat) : Char.toLower c = c := by
  simp only [Char.toLower]
  rw [if_neg (by omega)]

theorem isDigitChar_toLower (c : Char) : isDigitChar (Char.toLower c) = isDigitChar c := by
  simp only [Char.toLower]
  by_cases h : c.toNat ≥ 65 ∧ c.toNat ≤ 90
  · rw [if_pos h]
    obtain ⟨h1, h2⟩ := h
    have hd : isDigitChar c = false := by
      rw [Bool.eq_false_iff]
      intro hc
      rw [isDigitChar_iff] at hc
      omega
    rw [hd]
    rw [Bool.eq_false_iff]
    intro hc
    rw [isDigitChar_iff] at hc
    set m := c.toNat with hm
    interval_cases m <;> revert hc <;> decide
  · rw [if_neg h]

theorem lower_not_digit {c : Char} (h : isLowerAlphaChar c = true) : isDigitChar c = false := by
  rw [isLowerAlphaChar_iff] at h
  rw [Bool.eq_false_iff]
  intro hc
  rw [isDigitChar_iff] at hc
  omega

theorem sep_not_digit {c : Char} (h : isSepChar c = true) : isDigitChar c = false := by
  have h' : c = '.' ∨ c = '-' := by simpa [isSepChar] using h
  rcases h' with h' | h' <;> subst h' <;> decide

theorem map_toLower_fixed {l : List Char} (h : ∀ c ∈ l, Char.toLower c = c) :
    l.map Char.toLower = l := by
  induction l with
  | nil => rfl
  | cons c rest ih =>
    simp only [List.map_cons, h c (List.mem_cons_self c rest)]
    rw [ih (fun x hx => h x (List.mem_cons_of_mem c hx))]

theorem scanVersion_isSome :
    ∀ l : List Char, (∃ c ∈ l, isDigitChar c = true) → (scanVersion l).isSome = true := by
  intro l
  induction l with
  | nil => rintro ⟨c, hc, _⟩; cases hc
  | cons c rest ih =>
    rintro ⟨x, hx, hdx⟩
    simp only [scanVersion]
    split
    · rfl
    · rename_i hc
      have hxr : x ∈ rest := by
        rcases List.mem_cons.mp hx with h | h
        · exact absurd (h ▸ hdx) hc
        · exact h
      split
      · rfl
      · exact ih ⟨x, hxr, hdx⟩

theorem scanVersion_none :
    ∀ l : List Char, (∀ c ∈ l, isDigitChar c = false) → scanVersion l = none := by
  intro l
  induction l with
  | nil => intro _; rfl
  | cons c rest ih =>
    intro h
    have hc : isDigitChar c = false := h c (List.mem_cons_self c rest)
    simp only [scanVersion]
    split
    · rename_i hcon
      exact absurd hcon (by simp [hc])
    · split
      · rename_i hcon
        exfalso
        cases rest with
        | nil => simp at hcon
        | cons d rs =>
          have hd : isDigitChar d = false :=
            h d (List.mem_cons_of_mem c (List.mem_cons_self d rs))
          simp [hd] at hcon
      · exact ih (fun x hx => h x (List.mem_cons_of_mem c hx))

/-! Helper lemmas about the history walk. -/

theorem commitQualifies_false {tagmap : Nat → Option String} {c : CommitInfo}
    (h : commitQualifies tagmap c = false) :
    releaseHit c = none ∧ tagHit tagmap c = none := by
  simp only [commitQualifies, Bool.or_eq_false_iff] at h
  constructor
  · cases hr : releaseHit c with
    | none => rfl
    | some rv => rw [hr] at h; simp at h
  · cases ht : tagHit tagmap c with
    | none => rfl
    | some rv => rw [ht] at h; simp at h

theorem walk_exhaust (tagmap : Nat → Option String) (head_oid : Nat) (head_short : String) :
    ∀ (chain : List CommitInfo) (count : Nat),
      (∀ c ∈ chain, commitQualifies tagmap c = false) →
      count + chain.length ≤ 4096 →
      head_version_walk tagmap head_oid head_short chain count =
        Except.ok ⟨some ⟨0, 0, 0, none, none⟩, count + chain.length,
          some head_oid, some head_short, none⟩ := by
  intro chain
  induction chain with
  | nil =>
    intro count _ _
    simp [head_version_walk, PatchVersion.new]
  | cons c rest ih =>
    intro count hq hbound
    obtain ⟨h1, h2⟩ := commitQualifies_false (hq c (List.mem_cons_self c rest))
    rw [head_version_walk, h1, h2]
    rw [if_neg (by simp only [List.length_cons] at hbound; omega)]
    rw [ih (count + 1) (fun x hx => hq x (List.mem_cons_of_mem c hx))
      (by simp only [List.length_cons] at hbound ⊢; omega)]
    have harith : count + 1 + rest.length = count + (c :: rest).length := by
      simp only [List.length_cons]; omega
    rw [harith]

theorem walk_too_deep (tagmap : Nat → Option String) (head_oid : Nat) (head_short : String) :
    ∀ (chain : List CommitInfo) (count : Nat),
      count ≤ 4096 →
      (∀ c ∈ chain.take (4097 - count), commitQualifies tagmap c = false) →
      count + chain.length > 4096 →
      head_version_walk tagmap head_oid head_short chain count =
        Except.error (VersionError.Generic "too many commits") := by
  intro chain
  induction chain with
  | nil =>
    intro count hcount _ hlen
    simp only [List.length_nil] at hlen
    omega
  | cons c rest ih =>
    intro count hcount hq hlen
    have htake : (c :: rest).take (4097 - count) = c :: rest.take (4096 - count) := by
      have h47 : 4097 - count = (4096 - count) + 1 := by omega
      rw [h47, List.take_succ_cons]
    rw [htake] at hq
    obtain ⟨h1, h2⟩ := commitQualifies_false (hq c (List.mem_cons_self c _))
    rw [head_version_walk, h1, h2]
    by_cases hb : count + 1 > 4096
    · rw [if_pos hb]
    · rw [if_neg hb]
      have h46 : 4097 - (count + 1) = 4096 - count := by omega
      refine ih (count + 1) (by omega) ?_ (by simp only [List.length_cons] at hlen; omega)
      rw [h46]
      exact fun x hx => hq x (List.mem_cons_of_mem c hx)

theorem walk_take (tagmap : Nat → Option String) (head_oid : Nat) (head_short : String) :
    ∀ (chain : List CommitInfo) (count : Nat),
      count ≤ 4096 →
      head_version_walk tagmap head_oid head_short chain count =
        head_version_walk tagmap head_oid head_short (chain.take (4097 - count)) count := by
  intro chain
  induction chain with
  | nil =>
    intro count _
    simp
  | cons c rest ih =>
    intro count hcount
    have htake : (c :: rest).take (4097 - count) = c :: rest.take (4096 - count) := by
      have h47 : 4097 - count = (4096 - count) + 1 := by omega
      rw [h47, List.take_succ_cons]
    rw [htake]
    rw [head_version_walk, head_version_walk]
    cases hr : releaseHit c with
    | some rv => rfl
    | none =>
      cases ht : tagHit tagmap c with
      | some rv => rfl
      | none =>
        by_cases hb : count + 1 > 4096
        · rw [if_pos hb, if_pos hb]
        · rw [if_neg hb, if_neg hb]
          have h46 : 4097 - (count + 1) = 4096 - count := by omega
          rw [ih (count + 1) (by omega), h46]

/-- Every successful `head_version` walk yields a `PatchVersion` with no
identifier, HEAD's object id, and HEAD's short id — so the merge policy
always sees `ident = none` and `commit = current short id`. -/
theorem head_version_shape (tagmap : Nat → Option String) (head_oid : Nat)
    (head_short : String) :
    ∀ (chain : List CommitInfo) (count : Nat) (p : PatchVersion),
      head_version_walk tagmap head_oid head_short chain count = Except.ok p →
      p.ident = none ∧ p._patch_oid = some head_oid ∧ p.patch_short = some head_short := by
  intro chain
  induction chain with
  | nil =>
    intro count p h
    simp only [head_version_walk] at h
    injection h with h2
    subst h2
    exact ⟨rfl, rfl, rfl⟩
  | cons c rest ih =>
    intro count p h
    simp only [head_version_walk] at h
    split at h
    · injection h with h2; subst h2; exact ⟨rfl, rfl, rfl⟩
    · split at h
      · injection h with h2; subst h2; exact ⟨rfl, rfl, rfl⟩
      · split at h
        · cases h
        · exact ih (count + 1) p h

/-! Formalisation of the spec's input pattern `letter? digits (sep digits)? (sep digits)?`
for the extractor claim. -/

/-- The optional trailing `(sep digits)? (sep digits)?` part of the spec's
pattern. -/
inductive TailGroups where
  | noGroups : TailGroups
  | oneGroup (sep2 : Char) (d2 : List Char) : TailGroups
  | twoGroups (sep2 : Char) (d2 : List Char) (sep3 : Char) (d3 : List Char) : TailGroups
deriving DecidableEq, Repr

/-- The character sequence of the trailing groups. -/
def TailGroups.toList : TailGroups → List Char
  | noGroups => []
  | oneGroup s2 d2 => s2 :: d2
  | twoGroups s2 d2 s3 d3 => s2 :: (d2 ++ s3 :: d3)

/-- The minor value the claim expects: the second numeric group, 0 when
missing. -/
def TailGroups.minorVal : TailGroups → Nat
  | noGroups => 0
  | oneGroup _ d2 => digitsVal d2
  | twoGroups _ d2 _ _ => digitsVal d2

/-- The patch value the claim expects: the third numeric group, 0 when
missing. -/
def TailGroups.patchVal : TailGroups → Nat
  | noGroups => 0
  | oneGroup _ _ => 0
  | twoGroups _ _ _ d3 => digitsVal d3

/-- A well-formed digit group: non-empty, all ASCII digits. -/
def digitsWf (ds : List Char) : Prop := ds ≠ [] ∧ ∀ c ∈ ds, isDigitChar c = true

/-- Well-formedness of the trailing groups: separators in `{., -}`, digit
groups well-formed. -/
def TailGroups.wf : TailGroups → Prop
  | noGroups => True
  | oneGroup s2 d2 => isSepChar s2 = true ∧ digitsWf d2
  | twoGroups s2 d2 s3 d3 =>
    isSepChar s2 = true ∧ digitsWf d2 ∧ isSepChar s3 = true ∧ digitsWf d3

/-- All numeric groups of the tail fit the given bound. -/
def TailGroups.boundedBy : TailGroups → Nat → Prop
  | noGroups, _ => True
  | oneGroup _ d2, m => digitsVal d2 ≤ m
  | twoGroups _ d2 _ d3, m => digitsVal d2 ≤ m ∧ digitsVal d3 ≤ m

/-- A full instance of the spec's pattern `letter? digits (sep digits)?
(sep digits)?`: an optional lower-case letter, then the three groups. -/
def patternText (letter : Option Char) (d1 : List Char) (t : TailGroups) : List Char :=
  letter.toList ++ d1 ++ t.toList

/-- Well-formedness of a pattern instance. -/
def patternWf (letter : Option Char) (d1 : List Char) (t : TailGroups) : Prop :=
  (∀ c ∈ letter.toList, isLowerAlphaChar c = true) ∧ digitsWf d1 ∧ t.wf

/-- The head of a list is not a digit (vacuously true for the empty list). -/
def headNotDigit : List Char → Prop
  | [] => True
  | c :: _ => isDigitChar c = false

theorem takeWhile_digits_append :
    ∀ (ds rest : List Char), (∀ c ∈ ds, isDigitChar c = true) → headNotDigit rest →
      (ds ++ rest).takeWhile isDigitChar = ds ∧ (ds ++ rest).dropWhile isDigitChar = rest := by
  intro ds
  induction ds with
  | nil =>
    intro rest _ hrest
    cases rest with
    | nil => simp
    | cons r rs =>
      simp only [headNotDigit] at hrest
      simp [List.takeWhile_cons, List.dropWhile_cons, hrest]
  | cons d ds ih =>
    intro rest hds hrest
    have hd : isDigitChar d = true := hds d (List.mem_cons_self d ds)
    have := ih rest (fun x hx => hds x (List.mem_cons_of_mem d hx)) hrest
    simp only [List.cons_append, List.takeWhile_cons, List.dropWhile_cons, hd, if_pos]
    simp [this.1, this.2]

theorem afterSep_group (sep : Char) (ds rest : List Char) (hsep : isSepChar sep = true)
    (hds : digitsWf ds) (hrest : headNotDigit rest) :
    afterSep (sep :: (ds ++ rest)) = some (ds, rest) := by
  obtain ⟨hne, hdig⟩ := hds
  obtain ⟨htake, hdrop⟩ := takeWhile_digits_append ds rest hdig hrest
  simp only [afterSep, hsep, if_pos, htake, hdrop]
  rw [if_neg hne]

/-- The minor group as `to_number` computes it (the code-side value of the
second capture). -/
def TailGroups.minorNum : TailGroups → Nat
  | noGroups => to_number none
  | oneGroup _ d2 => to_number (some d2)
  | twoGroups _ d2 _ _ => to_number (some d2)

/-- The patch group as `to_number` computes it (the code-side value of the
third capture). -/
def TailGroups.patchNum : TailGroups → Nat
  | noGroups => to_number none
  | oneGroup _ _ => to_number none
  | twoGroups _ _ _ d3 => to_number (some d3)

theorem matchAt_pattern (d1 : List Char) (t : TailGroups) (h1 : digitsWf d1) (ht : t.wf) :
    matchAt (d1 ++ t.toList) = (to_number (some d1), t.minorNum, t.patchNum) := by
  cases t with
  | noGroups =>
    obtain ⟨htake, hdrop⟩ := takeWhile_digits_append d1 TailGroups.noGroups.toList h1.2 trivial
    simp only [TailGroups.minorNum, TailGroups.patchNum]
    simp only [matchAt, htake, hdrop]
    rfl
  | oneGroup s2 d2 =>
    obtain ⟨hs2, hd2⟩ := ht
    obtain ⟨htake, hdrop⟩ :=
      takeWhile_digits_append d1 (TailGroups.oneGroup s2 d2).toList h1.2 (sep_not_digit hs2)
    simp only [TailGroups.minorNum, TailGroups.patchNum]
    simp only [matchAt, htake, hdrop]
    have h2 : afterSep (TailGroups.oneGroup s2 d2).toList = some (d2, []) := by
      have := afterSep_group s2 d2 [] hs2 hd2 trivial
      simp only [TailGroups.toList]
      rwa [List.append_nil] at this
    rw [h2]
    rfl
  | twoGroups s2 d2 s3 d3 =>
    obtain ⟨hs2, hd2, hs3, hd3⟩ := ht
    obtain ⟨htake, hdrop⟩ :=
      takeWhile_digits_append d1 (TailGroups.twoGroups s2 d2 s3 d3).toList h1.2
        (sep_not_digit hs2)
    simp only [TailGroups.minorNum, TailGroups.patchNum]
    simp only [matchAt, htake, hdrop]
    have h2 : afterSep (TailGroups.twoGroups s2 d2 s3 d3).toList = some (d2, s3 :: d3) :=
      afterSep_group s2 d2 (s3 :: d3) hs2 hd2 (sep_not_digit hs3)
    rw [h2]
    have h3 : afterSep (s3 :: d3) = some (d3, []) := by
      have := afterSep_group s3 d3 [] hs3 hd3 trivial
      rwa [List.append_nil] at this
    simp only [h3]

theorem scanVersion_pattern (letter : Option Char) (d1 : List Char) (t : TailGroups)
    (hw : patternWf letter d1 t) :
    scanVersion (patternText letter d1 t) = some (matchAt (d1 ++ t.toList)) := by
  obtain ⟨hl, hd1, ht⟩ := hw
  obtain ⟨hne, hdig⟩ := hd1
  cases letter with
  | none =>
    cases d1 with
    | nil => exact absurd rfl hne
    | cons x xs =>
      have hx : isDigitChar x = true := hdig x (List.mem_cons_self x xs)
      simp only [patternText, Option.toList, List.nil_append, List.cons_append]
      simp only [scanVersion]
      rw [if_pos hx]
  | some a =>
    have ha : isLowerAlphaChar a = true := hl a (by simp [Option.toList])
    have hna : isDigitChar a = false := lower_not_digit ha
    cases d1 with
    | nil => exact absurd rfl hne
    | cons x xs =>
      have hx : isDigitChar x = true := hdig x (List.mem_cons_self x xs)
      simp only [patternText, Option.toList, List.singleton_append, List.cons_append]
      simp only [scanVersion]
      rw [if_neg (by simp [hna])]
      rw [if_pos (by simp [ha, hx])]
      rfl

/-- `version_from_string` on an explicit character list, unfolded. -/
theorem version_from_string_mk (l : List Char) (c : Option String) :
    version_from_string (String.mk l) c =
      match scanVersion (l.map Char.toLower) with
      | some (major, minor, patch) => some ⟨major, minor, patch, none, c⟩
      | none => none := rfl

/-- Unfolding the data of a constructed string. -/
theorem data_mk (l : List Char) : (String.mk l).data = l := rfl

theorem to_number_of_le {ds : List Char} (h : digitsVal ds ≤ USIZE_MAX) :
    to_number (some ds) = digitsVal ds := by
  simp [to_number, h]

theorem sep_toLower {c : Char} (h : isSepChar c = true) : Char.toLower c = c := by
  have h' : c = '.' ∨ c = '-' := by simpa [isSepChar] using h
  rcases h' with h' | h' <;> subst h' <;> decide

theorem digit_toLower {c : Char} (h : isDigitChar c = true) : Char.toLower c = c := by
  rw [isDigitChar_iff] at h
  exact toLower_eq_self (Or.inl (by omega))

theorem lower_toLower {c : Char} (h : isLowerAlphaChar c = true) : Char.toLower c = c := by
  rw [isLowerAlphaChar_iff] at h
  exact toLower_eq_self (Or.inr (by omega))

theorem pattern_toLower_fixed (letter : Option Char) (d1 : List Char) (t : TailGroups)
    (hw : patternWf letter d1 t) :
    (patternText letter d1 t).map Char.toLower = patternText letter d1 t := by
  obtain ⟨hl, hd1, ht⟩ := hw
  apply map_toLower_fixed
  intro c hc
  simp only [patternText, List.append_assoc, List.mem_append] at hc
  rcases hc with hc | hc | hc
  · exact lower_toLower (hl c hc)
  · exact digit_toLower (hd1.2 c hc)
  · cases t with
    | noGroups => cases hc
    | oneGroup s2 d2 =>
      obtain ⟨hs2, hd2⟩ := ht
      rcases List.mem_cons.mp hc with h | h
      · exact h ▸ sep_toLower hs2
      · exact digit_toLower (hd2.2 c h)
    | twoGroups s2 d2 s3 d3 =>
      obtain ⟨hs2, hd2, hs3, hd3⟩ := ht
      rcases List.mem_cons.mp hc with h | h
      · exact h ▸ sep_toLower hs2
      · rcases List.mem_append.mp h with h' | h'
        · exact digit_toLower (hd2.2 c h')
        · rcases List.mem_cons.mp h' with h'' | h''
          · exact h'' ▸ sep_toLower hs3
          · exact digit_toLower (hd3.2 c h'')

/-! The ten claims. -/

/-- Claim C1: the Version Merge Policy of `main_version` combines a
`BranchVersion` and the history result exactly as the spec's §4.4 merge table
(`spec_merge`, written from the spec's words) prescribes: head-derived
version from `release ?? {0,0,0}` with `patch += distance` and
`commit = current short id`; Master → head-derived; Feature/Fix → identifier
set to the name; Other → identifier `"other"`; Release → `nmerge`-combined
major/minor, head patch, no identifier.  The history argument carries
`ident = none`, which `head_version_shape` shows holds of every history
result the walk can produce. -/
theorem c1_merge_policy (branch : BranchVersion) (release : Option SemanticVersion)
    (distance : Nat) (oid : Option Nat) (short : Option String) :
    main_version (Except.ok branch) (Except.ok ⟨release, distance, oid, short, none⟩) =
      spec_merge branch release distance short := by
  cases branch <;> cases release <;>
    simp only [spec_merge, spec_head_derived, Option.getD, Nat.zero_add] <;> try rfl

/-- Witness for C1 at a concrete branch and history. -/
theorem c1_merge_policy_witness :
    main_version (Except.ok BranchVersion.Master)
        (Except.ok ⟨some ⟨1, 4, 0, none, none⟩, 3, none, some "abc", none⟩) =
      spec_merge BranchVersion.Master (some ⟨1, 4, 0, none, none⟩) 3 (some "abc") :=
  c1_merge_policy BranchVersion.Master (some ⟨1, 4, 0, none, none⟩) 3 none (some "abc")

/-- Claim C2: `nmerge` returns the other argument when either is 0 (their sum
when both are 0), the common value when equal, and fails with the
version-mismatch error when both are non-zero and different; in particular
`nmerge 0 5 = 5`, `nmerge 5 0 = 5`, `nmerge 3 3 = 3`, `nmerge 3 4` fails. -/
theorem c2_nmerge_spec (a b : Nat) :
    (a = 0 → nmerge a b = Except.ok b)
    ∧ (b = 0 → nmerge a b = Except.ok a)
    ∧ nmerge a a = Except.ok a
    ∧ (a ≠ 0 → b ≠ 0 → a ≠ b →
        nmerge a b = Except.error (VersionError.Generic "major version mismatch"))
    ∧ nmerge 0 5 = Except.ok 5
    ∧ nmerge 5 0 = Except.ok 5
    ∧ nmerge 3 3 = Except.ok 3
    ∧ nmerge 3 4 = Except.error (VersionError.Generic "major version mismatch") := by
  refine ⟨?_, ?_, ?_, ?_, rfl, rfl, rfl, rfl⟩
  · rintro rfl; simp [nmerge]
  · rintro rfl; simp [nmerge]
  · by_cases h : a = 0
    · subst h; simp [nmerge]
    · simp [nmerge, h]
  · intro ha hb hne; simp [nmerge, ha, hb, hne]

/-- Witness for C2: the mismatch case at `a = 3, b = 4`. -/
theorem c2_nmerge_spec_witness :
    nmerge 3 4 = Except.error (VersionError.Generic "major version mismatch") :=
  (c2_nmerge_spec 3 4).2.2.2.1 (by decide) (by decide) (by decide)

/-- Claim C3 (amended): when the walk exhausts the chain (at most 4096
commits) without any release marker or qualifying tag, `head_version`
returns successfully with distance equal to the number of commits walked —
but the release field is `some` zero version `{0,0,0}` (which downstream
treats exactly like an absent release), not `none` as the claim states. -/
theorem c3_exhausted_history (tagmap : Nat → Option String) (head_oid : Nat)
    (head_short : String) (chain : List CommitInfo)
    (hq : ∀ c ∈ chain, commitQualifies tagmap c = false)
    (hlen : chain.length ≤ 4096) :
    head_version tagmap head_oid head_short chain =
      Except.ok ⟨some ⟨0, 0, 0, none, none⟩, chain.length, some head_oid, some head_short,
        none⟩ := by
  have h := walk_exhaust tagmap head_oid head_short chain 0 hq (by omega)
  simpa using h

/-- Witness for C3's amended theorem at a one-commit history. -/
theorem c3_exhausted_history_witness :
    head_version (fun _ => none) 7 "abc" [⟨1, "hello", "h1"⟩] =
      Except.ok ⟨some ⟨0, 0, 0, none, none⟩, 1, some 7, some "abc", none⟩ := by
  have h := c3_exhausted_history (fun _ => none) 7 "abc" [⟨1, "hello", "h1"⟩]
    (by intro c hc
        have hc' : c = ⟨1, "hello", "h1"⟩ := by simpa using hc
        subst hc'
        decide)
    (by decide)
  exact h

/-- Claim C3 counterexample: on a marker-free one-commit history the code
returns `release = some {0,0,0}` — a present zero version, not the absent
release the claim describes. -/
theorem c3_release_not_absent_cex :
    head_version (fun _ => none) 9 "cafe" [⟨2, "initial commit", "aa11"⟩] =
      Except.ok ⟨some ⟨0, 0, 0, none, none⟩, 1, some 9, some "cafe", none⟩
    ∧ (some (⟨0, 0, 0, none, none⟩ : SemanticVersion) ≠ (none : Option SemanticVersion)) :=
  ⟨rfl, by decide⟩

/-- Claim C4: the walk is bounded — past 4096 unmatched commits
`head_version` fails with the distinct "too many commits" error, and the
result only ever depends on the first 4097 commits of the chain (the walk
terminates after at most 4097 visited commits). -/
theorem c4_walk_bounded (tagmap : Nat → Option String) (head_oid : Nat) (head_short : String)
    (chain : List CommitInfo) :
    (chain.length > 4096 → (∀ c ∈ chain.take 4097, commitQualifies tagmap c = false) →
      head_version tagmap head_oid head_short chain =
        Except.error (VersionError.Generic "too many commits"))
    ∧ head_version tagmap head_oid head_short chain =
        head_version tagmap head_oid head_short (chain.take 4097) := by
  constructor
  · intro hlen hq
    exact walk_too_deep tagmap head_oid head_short chain 0 (by omega)
      (by simpa using hq) (by omega)
  · simpa using walk_take tagmap head_oid head_short chain 0 (by omega)

/-- Witness for C4 on a 4097-commit unmatched chain. -/
theorem c4_walk_bounded_witness :
    head_version (fun _ => none) 0 "s0" (List.replicate 4097 ⟨0, "x", "x"⟩) =
      Except.error (VersionError.Generic "too many commits") := by
  refine (c4_walk_bounded (fun _ => none) 0 "s0" _).1
    (by rw [List.length_replicate]; omega) ?_
  intro c hc
  have hcx : c = ⟨0, "x", "x"⟩ := List.eq_of_mem_replicate (List.mem_of_mem_take hc)
  subst hcx
  decide

/-- Claim C5: branch classification is total and first-match-wins over the
lower-cased branch name — version parse → Release, reserved names → Master,
`feature/` prefix → Feature(rest), `fix/` prefix → Fix(rest), otherwise
Other(whole name) — with the spec's five examples. -/
theorem c5_branch_classification :
    (∀ s : String,
      ((∃ v, classify_branch s = BranchVersion.Release v)
        ∨ classify_branch s = BranchVersion.Master
        ∨ (∃ n, classify_branch s = BranchVersion.Feature n)
        ∨ (∃ n, classify_branch s = BranchVersion.Fix n)
        ∨ (∃ n, classify_branch s = BranchVersion.Other n))
      ∧ (∀ v, version_from_string s none = some v →
          classify_branch s = BranchVersion.Release v)
      ∧ (version_from_string s none = none →
          (s = "master" ∨ s = "main" ∨ s = "release") →
          classify_branch s = BranchVersion.Master)
      ∧ (version_from_string s none = none →
          ¬(s = "master" ∨ s = "main" ∨ s = "release") →
          strStartsWith s "feature/" = true →
          classify_branch s = BranchVersion.Feature (String.mk (s.data.drop 8)))
      ∧ (version_from_string s none = none →
          ¬(s = "master" ∨ s = "main" ∨ s = "release") →
          strStartsWith s "feature/" = false → strStartsWith s "fix/" = true →
          classify_branch s = BranchVersion.Fix (String.mk (s.data.drop 4)))
      ∧ (version_from_string s none = none →
          ¬(s = "master" ∨ s = "main" ∨ s = "release") →
          strStartsWith s "feature/" = false → strStartsWith s "fix/" = false →
          classify_branch s = BranchVersion.Other s))
    ∧ classify_branch "main" = BranchVersion.Master
    ∧ classify_branch "2.0" = BranchVersion.Release ⟨2, 0, 0, none, none⟩
    ∧ classify_branch "feature/foo" = BranchVersion.Feature "foo"
    ∧ classify_branch "fix/bar" = BranchVersion.Fix "bar"
    ∧ classify_branch "wip-stuff" = BranchVersion.Other "wip-stuff" := by
  refine ⟨?_, rfl, rfl, rfl, rfl, rfl⟩
  intro s
  refine ⟨?_, ?_, ?_, ?_, ?_, ?_⟩
  · unfold classify_branch
    split
    · exact Or.inl ⟨_, rfl⟩
    · split
      · exact Or.inr (Or.inl rfl)
      · split
        · exact Or.inr (Or.inr (Or.inl ⟨_, rfl⟩))
        · split
          · exact Or.inr (Or.inr (Or.inr (Or.inl ⟨_, rfl⟩)))
          · exact Or.inr (Or.inr (Or.inr (Or.inr ⟨_, rfl⟩)))
  · intro v hv
    simp only [classify_branch, hv]
  · intro hnone hname
    simp only [classify_branch, hnone]
    rw [if_pos hname]
  · intro hnone hnotname hfeat
    simp only [classify_branch, hnone]
    rw [if_neg hnotname, if_pos hfeat]
  · intro hnone hnotname hnfeat hfix
    simp only [classify_branch, hnone]
    rw [if_neg hnotname, if_neg (by simp [hnfeat]), if_pos hfix]
  · intro hnone hnotname hnfeat hnfix
    simp only [classify_branch, hnone]
    rw [if_neg hnotname, if_neg (by simp [hnfeat]), if_neg (by simp [hnfix])]

/-- Witness for C5: the feature chain at `"feature/foo"` with every guard
discharged concretely. -/
theorem c5_branch_classification_witness :
    classify_branch "feature/foo" = BranchVersion.Feature (String.mk ("feature/foo".data.drop 8)) :=
  (c5_branch_classification.1 "feature/foo").2.2.2.1 (by decide) (by decide) (by decide)

/-- Claim C6 (code bug): `branch_version` propagates a backend failure of
`repo.head()` as an error value, but when HEAD resolves and its shorthand is
unavailable the source calls `.unwrap()` on `None` and panics (modelled as
the `none` outcome) instead of returning the resolution error the spec
promises. -/
theorem c6_no_shorthand_panics :
    branch_version (Except.ok ⟨none⟩) = none
    ∧ branch_version (Except.error VersionError.Git) = some (Except.error VersionError.Git) :=
  ⟨rfl, rfl⟩

/-- Claim C7 (amended): on any instance of the pattern
`letter? digits (sep digits)? (sep digits)?` whose numeric groups fit in a
64-bit `usize`, the extractor returns the groups in order with missing
groups defaulting to 0 (a group whose value overflows `usize` is parsed as 0
by `unwrap_or(0)` — the amendment); digit-free text yields "no version
found" (`none`), not an error; with the spec's three examples. -/
theorem c7_extractor :
    (∀ (letter : Option Char) (d1 : List Char) (t : TailGroups) (c : Option String),
      patternWf letter d1 t → digitsVal d1 ≤ USIZE_MAX → t.boundedBy USIZE_MAX →
      version_from_string (String.mk (patternText letter d1 t)) c =
        some ⟨digitsVal d1, t.minorVal, t.patchVal, none, c⟩)
    ∧ (∀ (s : String) (c : Option String), (∀ ch ∈ s.data, isDigitChar ch = false) →
        version_from_string s c = none)
    ∧ version_from_string "v1.2.3" none = some ⟨1, 2, 3, none, none⟩
    ∧ version_from_string "release-7" none = some ⟨7, 0, 0, none, none⟩
    ∧ version_from_string "nightly" none = none := by
  refine ⟨?_, ?_, rfl, rfl, rfl⟩
  · intro letter d1 t c hw hb1 hbt
    have hmi : t.minorNum = t.minorVal := by
      cases t with
      | noGroups => rfl
      | oneGroup s2 d2 => exact to_number_of_le hbt
      | twoGroups s2 d2 s3 d3 => exact to_number_of_le hbt.1
    have hpa : t.patchNum = t.patchVal := by
      cases t with
      | noGroups => rfl
      | oneGroup s2 d2 => rfl
      | twoGroups s2 d2 s3 d3 => exact to_number_of_le hbt.2
    rw [version_from_string_mk, pattern_toLower_fixed letter d1 t hw,
      scanVersion_pattern letter d1 t hw, matchAt_pattern d1 t hw.2.1 hw.2.2,
      to_number_of_le hb1, hmi, hpa]
  · intro s c h
    have hmapped : ∀ ch ∈ s.data.map Char.toLower, isDigitChar ch = false := by
      intro ch hch
      obtain ⟨y, hy, rfl⟩ := List.mem_map.mp hch
      rw [isDigitChar_toLower]
      exact h y hy
    have hnone := scanVersion_none (s.data.map Char.toLower) hmapped
    simp only [version_from_string, strToLower, data_mk]
    rw [hnone]

/-- Witness for C7 at the pattern instance spelling `"v1.2.3"`. -/
theorem c7_extractor_witness :
    version_from_string (String.mk (patternText (some 'v') ['1']
        (TailGroups.twoGroups '.' ['2'] '.' ['3']))) none =
      some ⟨1, 2, 3, none, none⟩ :=
  c7_extractor.1 (some 'v') ['1'] (TailGroups.twoGroups '.' ['2'] '.' ['3']) none
    (by exact ⟨by decide, ⟨by decide, by decide⟩,
      by decide, ⟨by decide, by decide⟩, by decide, ⟨by decide, by decide⟩⟩)
    (by decide)
    (by exact ⟨by decide, by decide⟩)

/-- Claim C7 counterexample: the 20-digit input `"99999999999999999999"` is a
pattern instance whose first group's value exceeds `usize::MAX`; the
extractor returns (0,0,0) for it, not the numeric group the claim
promises. -/
theorem c7_overflow_cex :
    version_from_string "99999999999999999999" none = some ⟨0, 0, 0, none, none⟩
    ∧ String.mk (patternText none (List.replicate 20 '9') TailGroups.noGroups) =
        "99999999999999999999"
    ∧ digitsVal (List.replicate 20 '9') = 99999999999999999999
    ∧ (some (⟨0, 0, 0, none, none⟩ : SemanticVersion) ≠
        some (⟨99999999999999999999, 0, 0, none, none⟩ : SemanticVersion)) :=
  ⟨rfl, by decide, by decide, by decide⟩

/-- Claim C8: a merged version with `patch = 0` makes `main_release` fail
(the "nothing to release" precondition, message `"patch version is not
zero"` in the source) with an empty effect trace — no changelog file, no
commit, no tag, the check precedes every side effect. -/
theorem c8_nothing_to_release (v : SemanticVersion) (h : v.patch = 0) :
    main_release (Except.ok v) =
      (Except.error (VersionError.Generic "patch version is not zero"), []) := by
  simp [main_release, h]

/-- Witness for C8 at the merged version 1.4.0. -/
theorem c8_nothing_to_release_witness :
    main_release (Except.ok ⟨1, 4, 0, none, none⟩) =
      (Except.error (VersionError.Generic "patch version is not zero"), []) :=
  c8_nothing_to_release ⟨1, 4, 0, none, none⟩ rfl

/-- Claim C9: with `patch ≠ 0` the Release Cutter returns
`{major, minor+1, 0}`, writes the changelog stub named from the rendered
next version, commits with message `release: <version>`, and force-creates
the annotated tag `P<major>-<minor>`; concretely 1.4.3 → 1.5.0,
`"release: 1.5.0"`, tag `"P1-5"`. -/
theorem c9_release_cutter :
    (∀ v : SemanticVersion, v.patch ≠ 0 →
      main_release (Except.ok v) =
        (Except.ok ⟨v.major, v.minor + 1, 0, none, none⟩,
         [Effect.writeFile
            ("changes." ++ (SemanticVersion.mk v.major (v.minor + 1) 0 none none).version_string)
            ("Changes for version " ++
              (SemanticVersion.mk v.major (v.minor + 1) 0 none none).version_string ++ "\n"),
          Effect.commit
            ("release: " ++
              (SemanticVersion.mk v.major (v.minor + 1) 0 none none).version_string),
          Effect.tag ("P" ++ toString v.major ++ "-" ++ toString (v.minor + 1))
            ("Release " ++ ("P" ++ toString v.major ++ "-" ++ toString (v.minor + 1)))
            true]))
    ∧ main_release (Except.ok ⟨1, 4, 3, none, none⟩) =
        (Except.ok ⟨1, 5, 0, none, none⟩,
         [Effect.writeFile "changes.1.5.0" "Changes for version 1.5.0\n",
          Effect.commit "release: 1.5.0",
          Effect.tag "P1-5" "Release P1-5" true]) := by
  refine ⟨?_, rfl⟩
  intro v h
  simp [main_release, h]

/-- Witness for C9 at the merged version 1.4.3. -/
theorem c9_release_cutter_witness :
    main_release (Except.ok ⟨1, 4, 3, none, none⟩) =
      (Except.ok ⟨1, 5, 0, none, none⟩,
       [Effect.writeFile "changes.1.5.0" "Changes for version 1.5.0\n",
        Effect.commit "release: 1.5.0",
        Effect.tag "P1-5" "Release P1-5" true]) :=
  c9_release_cutter.1 ⟨1, 4, 3, none, none⟩ (by decide)

/-- Whether a classification is the Release category. -/
def BranchVersion.isRelease : BranchVersion → Bool
  | BranchVersion.Release _ => true
  | _ => false

/-- Claim C10: any branch name containing a decimal digit is classified
Release (the unanchored scan matches the first digit run), so
Feature/Fix/Master/Other can only arise from digit-free names (the
contrapositive); e.g. `"fix/bug-123"` and `"feature/v2-login"` are Release,
not Fix or Feature. -/
theorem c10_digits_release :
    (∀ s : String, s.data.any isDigitChar = true →
      (classify_branch s).isRelease = true)
    ∧ classify_branch "fix/bug-123" = BranchVersion.Release ⟨123, 0, 0, none, none⟩
    ∧ classify_branch "feature/v2-login" = BranchVersion.Release ⟨2, 0, 0, none, none⟩ := by
  refine ⟨?_, rfl, rfl⟩
  intro s hs
  obtain ⟨x, hx, hdx⟩ := List.any_eq_true.mp hs
  have hmem : Char.toLower x ∈ (strToLower s).data := by
    show Char.toLower x ∈ s.data.map Char.toLower
    exact List.mem_map_of_mem Char.toLower hx
  have hd : isDigitChar (Char.toLower x) = true := by
    rw [isDigitChar_toLower]; exact hdx
  have hsome := scanVersion_isSome (strToLower s).data ⟨_, hmem, hd⟩
  obtain ⟨trip, htrip⟩ := Option.isSome_iff_exists.mp hsome
  obtain ⟨ma, mi, pa⟩ := trip
  simp [classify_branch, version_from_string, htrip, BranchVersion.isRelease]

/-- Witness for C10 at the digit-bearing branch name `"wip-2"`. -/
theorem c10_digits_release_witness : (classify_branch "wip-2").isRelease = true :=
  c10_digits_release.1 "wip-2" (by decide)

end Grelly
